import Mathlib

/-!
Shallow embedding of `src/main.py` (Committed: a git empty-commit generator).

The program is modelled as a pure function over three inputs:
* a `CommitConfig` (the parsed CLI arguments, already past argparse),
* a `VersionControlClient` oracle giving the outcome of each external git
  invocation (`git rev-parse --abbrev-ref HEAD`, `git commit --allow-empty`,
  `git push`),
* a `clock` assigning to each iteration index the timestamp string that
  `datetime.now().strftime("%Y-%m-%d %H:%M:%S")` returns at that iteration.

The observable behaviour is a trace of collaborator calls and user-visible
notices, the branch name printed, the final `failed_commits` counter, and the
process exit status (`sys.exit(1)` paths versus falling off the end of `main`,
which is exit status 0).
-/

namespace Committed

/-- One observable step of a run: the three collaborator operations plus the
user-visible notices that replace or report them. -/
inductive Event where
  | queryBranch : Event
  | createEmptyCommit (message : String) : Event
  | push : Event
  | noticeWouldCommit (message : String) : Event
  | noticeWouldPush : Event
  | noticePushed : Event
  | noticePushFailed : Event
deriving DecidableEq, Repr

/-- `CommitConfig` from `src/main.py` lines 12-19. `count` is an `int` in
Python, so it is an `Int` here (argparse accepts negative values; the sign
check happens in `main`). -/
structure CommitConfig where
  count : Int
  auto_push : Bool
  message_prefix : String := "Commit"
  branch : Option String := none
  dry_run : Bool := false
deriving DecidableEq, Repr

/-- The external version-control collaborator: the current branch (none when
`git rev-parse` fails, i.e. no repository), the success of the i-th
`git commit --allow-empty` call, and the success of `git push`. -/
structure VersionControlClient where
  currentBranch : Option String
  commitResult : Nat → Bool
  pushResult : Bool

/-- Python truthiness of an `Optional[str]`: `None` and `""` are falsy.
Used for `config.branch or get_current_branch()` (line 80). -/
def truthy : Option String → Bool
  | none => false
  | some s => !(s == "")

/-- The f-string of `make_commit` line 47:
`f"{config.message_prefix} {commit_number + 1} of {total_commits} at {timestamp}"`. -/
def commitMessage (pre : String) (commit_number : Nat) (total_commits : Int)
    (timestamp : String) : String :=
  pre ++ " " ++ toString (commit_number + 1) ++ " of " ++ toString total_commits
    ++ " at " ++ timestamp

/-- `make_commit` (lines 44-54): returns whether the commit counts as a
success, together with the observable event it produces (a dry-run notice, or
the actual `git commit --allow-empty` call). -/
def make_commit (commit_number : Nat) (total_commits : Int) (config : CommitConfig)
    (vc : VersionControlClient) (timestamp : String) : Bool × Event :=
  let message := commitMessage config.message_prefix commit_number total_commits timestamp
  if config.dry_run then
    (true, Event.noticeWouldCommit message)
  else
    (vc.commitResult commit_number, Event.createEmptyCommit message)

/-- `get_current_branch` (lines 36-42): one `git rev-parse` query; `none`
means the query failed and the Python function calls `sys.exit(1)`. -/
def get_current_branch (vc : VersionControlClient) : List Event × Option String :=
  ([Event.queryBranch], vc.currentBranch)

/-- The branch expression of line 80, `config.branch or get_current_branch()`:
a truthy configured branch short-circuits the query. -/
def resolve_branch (config : CommitConfig) (vc : VersionControlClient) :
    List Event × Option String :=
  if truthy config.branch then ([], config.branch) else get_current_branch vc

/-- The `for i in range(config.count)` loop of lines 88-93, started at index
`i` with `n` iterations left: collects each iteration's event in order and
sums the failed-commit increments. -/
def commit_loop (config : CommitConfig) (vc : VersionControlClient)
    (clock : Nat → String) : Nat → Nat → List Event × Nat
  | _, 0 => ([], 0)
  | i, n + 1 =>
    let r := make_commit i config.count config vc (clock i)
    let rest := commit_loop config vc clock (i + 1) n
    (r.2 :: rest.1, (if r.1 then 0 else 1) + rest.2)

/-- The push phase of lines 100-108: a real push (whose outcome is only
reported) when `auto_push` and not `dry_run`, a would-push notice when
`auto_push` and `dry_run`, nothing otherwise. -/
def push_phase (config : CommitConfig) (vc : VersionControlClient) : List Event :=
  if config.auto_push && !config.dry_run then
    Event.push :: (if vc.pushResult then [Event.noticePushed] else [Event.noticePushFailed])
  else if config.auto_push && config.dry_run then
    [Event.noticeWouldPush]
  else
    []

/-- The observable outcome of one invocation of the program. -/
structure RunResult where
  events : List Event
  branchShown : Option String
  failedCommits : Option Nat
  exitCode : Nat
deriving DecidableEq, Repr

/-- `main` (lines 56-108): the count check (lines 67-69, `sys.exit(1)`), the
branch resolution inside the banner print (line 80, `sys.exit(1)` on
failure), the commit loop (lines 88-93), and the push phase (lines 100-108).
Falling off the end of `main` is exit status 0. -/
def main (config : CommitConfig) (vc : VersionControlClient) (clock : Nat → String) :
    RunResult :=
  if config.count ≤ 0 then
    { events := [], branchShown := none, failedCommits := none, exitCode := 1 }
  else
    match resolve_branch config vc with
    | (evs, none) =>
      { events := evs, branchShown := none, failedCommits := none, exitCode := 1 }
    | (evs, some br) =>
      { events := evs ++ (commit_loop config vc clock 0 config.count.toNat).1
          ++ push_phase config vc,
        branchShown := some br,
        failedCommits := some (commit_loop config vc clock 0 config.count.toNat).2,
        exitCode := 0 }

/-- A mutating collaborator operation: `git commit` or `git push`. -/
def isMutating : Event → Bool
  | Event.createEmptyCommit _ => true
  | Event.push => true
  | _ => false

/-- A `git commit --allow-empty` call. -/
def isCommitCall : Event → Bool
  | Event.createEmptyCommit _ => true
  | _ => false

/-- A `git push` call. -/
def isPush : Event → Bool
  | Event.push => true
  | _ => false

/-- The `git rev-parse --abbrev-ref HEAD` query. -/
def isQueryBranch : Event → Bool
  | Event.queryBranch => true
  | _ => false

/-- A dry-run "[DRY RUN] Would commit" notice. -/
def isWouldCommit : Event → Bool
  | Event.noticeWouldCommit _ => true
  | _ => false

/-- One commit attempt of the loop body: either the real `git commit` call or
its dry-run replacement notice (exactly one per `make_commit` invocation). -/
def isAttempt : Event → Bool
  | Event.createEmptyCommit _ => true
  | Event.noticeWouldCommit _ => true
  | _ => false

/-- The commit message carried by a commit attempt. -/
def attemptMessage : Event → Option String
  | Event.createEmptyCommit m => some m
  | Event.noticeWouldCommit m => some m
  | _ => none

/-- Branch resolution succeeds: either the configured branch is truthy, or
the collaborator can answer the current-branch query. -/
def resolves (config : CommitConfig) (vc : VersionControlClient) : Bool :=
  truthy config.branch || vc.currentBranch.isSome

theorem truthy_some {o : Option String} (h : truthy o = true) : ∃ s, o = some s := by
  cases o with
  | none => simp [truthy] at h
  | some s => exact ⟨s, rfl⟩

theorem make_commit_snd_isAttempt (i : Nat) (t : Int) (config : CommitConfig)
    (vc : VersionControlClient) (ts : String) :
    isAttempt (make_commit i t config vc ts).2 = true := by
  unfold make_commit
  by_cases h : config.dry_run <;> simp [h, isAttempt]

theorem commit_loop_events (config : CommitConfig) (vc : VersionControlClient)
    (clock : Nat → String) :
    ∀ (n i : Nat), (commit_loop config vc clock i n).1 =
      (List.range' i n).map
        (fun k => (make_commit k config.count config vc (clock k)).2) := by
  intro n
  induction n with
  | zero => intro i; simp [commit_loop]
  | succ n ih => intro i; simp [commit_loop, List.range'_succ, ih]

theorem commit_loop_failed (config : CommitConfig) (vc : VersionControlClient)
    (clock : Nat → String) :
    ∀ (n i : Nat), (commit_loop config vc clock i n).2 =
      ((List.range' i n).filter
        (fun k => !(make_commit k config.count config vc (clock k)).1)).length := by
  intro n
  induction n with
  | zero => intro i; simp [commit_loop]
  | succ n ih =>
    intro i
    simp only [commit_loop, List.range'_succ, List.filter_cons]
    by_cases h : (make_commit i config.count config vc (clock i)).1 <;>
      simp [h, ih i.succ, Nat.add_comm]

theorem resolve_branch_truthy (config : CommitConfig) (vc : VersionControlClient)
    (h : truthy config.branch = true) :
    resolve_branch config vc = ([], config.branch) := by
  simp [resolve_branch, h]

theorem resolve_branch_query (config : CommitConfig) (vc : VersionControlClient)
    (h : truthy config.branch = false) :
    resolve_branch config vc = ([Event.queryBranch], vc.currentBranch) := by
  simp [resolve_branch, h, get_current_branch]

theorem main_count_nonpos (config : CommitConfig) (vc : VersionControlClient)
    (clock : Nat → String) (h : config.count ≤ 0) :
    main config vc clock =
      { events := [], branchShown := none, failedCommits := none, exitCode := 1 } := by
  simp [main, h]

theorem main_run (config : CommitConfig) (vc : VersionControlClient)
    (clock : Nat → String) (h0 : 0 < config.count) (evs : List Event) (br : String)
    (hres : resolve_branch config vc = (evs, some br)) :
    main config vc clock =
      { events := evs ++ (commit_loop config vc clock 0 config.count.toNat).1
          ++ push_phase config vc,
        branchShown := some br,
        failedCommits := some (commit_loop config vc clock 0 config.count.toNat).2,
        exitCode := 0 } := by
  have h1 : ¬ config.count ≤ 0 := by omega
  simp [main, h1, hres]

theorem main_noRepo (config : CommitConfig) (vc : VersionControlClient)
    (clock : Nat → String) (h0 : 0 < config.count)
    (ht : truthy config.branch = false) (hcb : vc.currentBranch = none) :
    main config vc clock =
      { events := [Event.queryBranch], branchShown := none, failedCommits := none,
        exitCode := 1 } := by
  have h1 : ¬ config.count ≤ 0 := by omega
  simp [main, h1, resolve_branch_query config vc ht, hcb]

theorem main_completes (config : CommitConfig) (vc : VersionControlClient)
    (clock : Nat → String) (h0 : 0 < config.count) (hres : resolves config vc = true) :
    ∃ evs br, (evs = [] ∨ evs = [Event.queryBranch]) ∧
      main config vc clock =
        { events := evs ++ (commit_loop config vc clock 0 config.count.toNat).1
            ++ push_phase config vc,
          branchShown := some br,
          failedCommits := some (commit_loop config vc clock 0 config.count.toNat).2,
          exitCode := 0 } := by
  by_cases ht : truthy config.branch
  · obtain ⟨b, hb⟩ := truthy_some ht
    refine ⟨[], b, Or.inl rfl, ?_⟩
    exact main_run config vc clock h0 [] b (by rw [resolve_branch_truthy config vc ht, hb])
  · have hsome : vc.currentBranch.isSome = true := by
      unfold resolves at hres
      simp [ht] at hres
      exact hres
    obtain ⟨b, hb⟩ := Option.isSome_iff_exists.mp hsome
    refine ⟨[Event.queryBranch], b, Or.inr rfl, ?_⟩
    exact main_run config vc clock h0 [Event.queryBranch] b
      (by rw [resolve_branch_query config vc (by simpa using ht), hb])

theorem filter_resolution (p : Event → Bool) (evs : List Event)
    (h : evs = [] ∨ evs = [Event.queryBranch]) (hp : p Event.queryBranch = false) :
    evs.filter p = [] := by
  rcases h with rfl | rfl
  · rfl
  · simp [List.filter_cons, hp]

theorem filter_push_phase (p : Event → Bool) (config : CommitConfig)
    (vc : VersionControlClient)
    (h1 : p Event.push = false) (h2 : p Event.noticePushed = false)
    (h3 : p Event.noticePushFailed = false) (h4 : p Event.noticeWouldPush = false) :
    (push_phase config vc).filter p = [] := by
  unfold push_phase
  by_cases ha : config.auto_push <;> by_cases hd : config.dry_run <;>
    by_cases hp : vc.pushResult <;>
      simp [ha, hd, hp, List.filter_cons, h1, h2, h3, h4]

theorem filter_attempt_loop (config : CommitConfig) (vc : VersionControlClient)
    (clock : Nat → String) (n i : Nat) :
    ((commit_loop config vc clock i n).1).filter isAttempt =
      (commit_loop config vc clock i n).1 := by
  rw [List.filter_eq_self]
  intro a ha
  rw [commit_loop_events] at ha
  simp only [List.mem_map] at ha
  obtain ⟨k, _, rfl⟩ := ha
  exact make_commit_snd_isAttempt k config.count config vc (clock k)

/-! Decimal-representation facts about `Nat.repr` (used by `str(...)` /
f-string formatting in the commit message): its characters are digits, so it
never contains a space, and it is injective. -/

theorem toDigitsCore_append : ∀ (f n : Nat) (ds : List Char),
    Nat.toDigitsCore 10 f n ds = Nat.toDigitsCore 10 f n [] ++ ds := by
  intro f
  induction f with
  | zero => intro n ds; simp [Nat.toDigitsCore]
  | succ f ih =>
    intro n ds
    simp only [Nat.toDigitsCore]
    by_cases h : n / 10 = 0
    · simp [h]
    · simp only [h, if_false]
      rw [ih (n / 10) (Nat.digitChar (n % 10) :: ds), ih (n / 10) [Nat.digitChar (n % 10)]]
      simp

theorem toDigitsCore_mem : ∀ (f n : Nat) (c : Char),
    c ∈ Nat.toDigitsCore 10 f n [] → ∃ d, d < 10 ∧ c = Nat.digitChar d := by
  intro f
  induction f with
  | zero => intro n c hc; simp [Nat.toDigitsCore] at hc
  | succ f ih =>
    intro n c hc
    simp only [Nat.toDigitsCore] at hc
    by_cases h : n / 10 = 0
    · simp [h] at hc
      exact ⟨n % 10, Nat.mod_lt _ (by norm_num), hc⟩
    · simp only [h, if_false] at hc
      rw [toDigitsCore_append] at hc
      rcases List.mem_append.mp hc with h1 | h2
      · exact ih (n / 10) c h1
      · simp at h2
        exact ⟨n % 10, Nat.mod_lt _ (by norm_num), h2⟩

theorem digitChar_ne_space {d : Nat} (h : d < 10) : Nat.digitChar d ≠ ' ' := by
  interval_cases d <;> decide

theorem repr_no_space (n : Nat) : ' ' ∉ (Nat.repr n).data := by
  intro hmem
  have hdata : (Nat.repr n).data = Nat.toDigitsCore 10 (n + 1) n [] := rfl
  rw [hdata] at hmem
  obtain ⟨d, hd, hc⟩ := toDigitsCore_mem (n + 1) n ' ' hmem
  exact digitChar_ne_space hd hc.symm

theorem toDigitsCore_eq_digits : ∀ (f n : Nat), 0 < n → n < f →
    Nat.toDigitsCore 10 f n [] = ((Nat.digits 10 n).map Nat.digitChar).reverse := by
  intro f
  induction f with
  | zero => intro n h0 hf; omega
  | succ f ih =>
    intro n h0 hf
    have hdig : Nat.digits 10 n = n % 10 :: Nat.digits 10 (n / 10) :=
      Nat.digits_def' (by norm_num) h0
    simp only [Nat.toDigitsCore]
    by_cases h : n / 10 = 0
    · rw [hdig, h]
      simp
    · have hlt : n / 10 < n := Nat.div_lt_self h0 (by norm_num)
      simp only [h, if_false]
      rw [toDigitsCore_append, ih (n / 10) (Nat.pos_of_ne_zero h) (by omega), hdig]
      simp

/-- The digit list whose rendering is `Nat.repr m` (least significant first):
`Nat.digits 10 m`, except that zero renders as the single digit `0`. -/
def reprDigits (m : Nat) : List Nat :=
  if m = 0 then [0] else Nat.digits 10 m

theorem reprDigits_lt (m : Nat) : ∀ d ∈ reprDigits m, d < 10 := by
  intro d hd
  unfold reprDigits at hd
  by_cases h : m = 0
  · simp [h] at hd
    omega
  · rw [if_neg h] at hd
    exact Nat.digits_lt_base (by norm_num) hd

theorem toDigitsCore_eq_reprDigits (m : Nat) :
    Nat.toDigitsCore 10 (m + 1) m [] = ((reprDigits m).map Nat.digitChar).reverse := by
  by_cases h : m = 0
  · subst h; rfl
  · unfold reprDigits
    rw [if_neg h]
    exact toDigitsCore_eq_digits (m + 1) m (Nat.pos_of_ne_zero h) (Nat.lt_succ_self m)

theorem reprDigits_inj {a b : Nat} (h : reprDigits a = reprDigits b) : a = b := by
  unfold reprDigits at h
  by_cases ha : a = 0 <;> by_cases hb : b = 0
  · omega
  · rw [if_pos ha, if_neg hb] at h
    have hb2 := Nat.ofDigits_digits 10 b
    rw [← h] at hb2
    simp [Nat.ofDigits] at hb2
    omega
  · rw [if_neg ha, if_pos hb] at h
    have ha2 := Nat.ofDigits_digits 10 a
    rw [h] at ha2
    simp [Nat.ofDigits] at ha2
    omega
  · rw [if_neg ha, if_neg hb] at h
    calc a = Nat.ofDigits 10 (Nat.digits 10 a) := (Nat.ofDigits_digits 10 a).symm
      _ = Nat.ofDigits 10 (Nat.digits 10 b) := by rw [h]
      _ = b := Nat.ofDigits_digits 10 b

/-- Inverse of `Nat.digitChar` on decimal digits. -/
def undigit (c : Char) : Nat := c.toNat - 48

theorem undigit_digitChar {d : Nat} (h : d < 10) : undigit (Nat.digitChar d) = d := by
  interval_cases d <;> decide

theorem map_digitChar_inj {l1 l2 : List Nat} (h1 : ∀ d ∈ l1, d < 10)
    (h2 : ∀ d ∈ l2, d < 10) (h : l1.map Nat.digitChar = l2.map Nat.digitChar) :
    l1 = l2 := by
  have e1 : (l1.map Nat.digitChar).map undigit = l1 := by
    rw [List.map_map]
    have heq : List.map (undigit ∘ Nat.digitChar) l1 = List.map id l1 :=
      List.map_congr_left (fun d hd => undigit_digitChar (h1 d hd))
    rw [heq, List.map_id]
  have e2 : (l2.map Nat.digitChar).map undigit = l2 := by
    rw [List.map_map]
    have heq : List.map (undigit ∘ Nat.digitChar) l2 = List.map id l2 :=
      List.map_congr_left (fun d hd => undigit_digitChar (h2 d hd))
    rw [heq, List.map_id]
  rw [← e1, ← e2, h]

theorem repr_data_inj {a b : Nat} (h : (Nat.repr a).data = (Nat.repr b).data) :
    a = b := by
  have hdata : Nat.toDigitsCore 10 (a + 1) a [] = Nat.toDigitsCore 10 (b + 1) b [] := h
  rw [toDigitsCore_eq_reprDigits, toDigitsCore_eq_reprDigits] at hdata
  exact reprDigits_inj
    (map_digitChar_inj (reprDigits_lt a) (reprDigits_lt b) (List.reverse_inj.mp hdata))

/-- Splitting two equal lists at the first space: when neither head part
contains a space, the parts agree. -/
theorem space_split : ∀ (xs ys u v : List Char), ' ' ∉ xs → ' ' ∉ ys →
    xs ++ ' ' :: u = ys ++ ' ' :: v → xs = ys ∧ u = v := by
  intro xs
  induction xs with
  | nil =>
    intro ys u v _ hy h
    cases ys with
    | nil => simpa using h
    | cons y ys =>
      simp only [List.nil_append, List.cons_append, List.cons.injEq] at h
      exact absurd (h.1 ▸ List.mem_cons_self y ys) hy
  | cons x xs ih =>
    intro ys u v hx hy h
    cases ys with
    | nil =>
      simp only [List.nil_append, List.cons_append, List.cons.injEq] at h
      exact absurd (h.1 ▸ List.mem_cons_self x xs) hx
    | cons y ys =>
      simp only [List.cons_append, List.cons.injEq] at h
      obtain ⟨rfl, h2⟩ := h
      have hx2 : ' ' ∉ xs := fun hm => hx (List.mem_cons_of_mem x hm)
      have hy2 : ' ' ∉ ys := fun hm => hy (List.mem_cons_of_mem x hm)
      obtain ⟨e1, e2⟩ := ih ys u v hx2 hy2 h2
      exact ⟨by rw [e1], e2⟩

/-- Two commit messages of the same run (same prefix, same total) with equal
text have equal sequence numbers: the space-free decimal sequence number sits
between the first two spaces after the shared prefix. -/
theorem commitMessage_inj (p : String) (c : Int) (i j : Nat) (t1 t2 : String)
    (h : commitMessage p i c t1 = commitMessage p j c t2) : i = j := by
  unfold commitMessage at h
  have hts1 : toString (i + 1) = Nat.repr (i + 1) := rfl
  have hts2 : toString (j + 1) = Nat.repr (j + 1) := rfl
  rw [hts1, hts2] at h
  have hd := congrArg String.data h
  simp only [String.data_append] at hd
  simp only [List.append_assoc, List.cons_append, List.singleton_append,
    List.nil_append] at hd
  have hd2 := List.append_cancel_left hd
  simp only [List.cons.injEq, true_and] at hd2
  have hsplit := space_split (Nat.repr (i + 1)).data (Nat.repr (j + 1)).data _ _
    (repr_no_space (i + 1)) (repr_no_space (j + 1)) hd2
  have := repr_data_inj hsplit.1
  omega

theorem not_resolves (config : CommitConfig) (vc : VersionControlClient)
    (h : ¬ resolves config vc = true) :
    truthy config.branch = false ∧ vc.currentBranch = none := by
  simp only [resolves, Bool.or_eq_true, not_or, Bool.not_eq_true] at h
  refine ⟨h.1, ?_⟩
  cases hcb : vc.currentBranch with
  | none => rfl
  | some s => rw [hcb] at h; simp at h

theorem filter_loop_eq_nil (p : Event → Bool) (config : CommitConfig)
    (vc : VersionControlClient) (clock : Nat → String) (n i : Nat)
    (hp1 : ∀ m, p (Event.createEmptyCommit m) = false)
    (hp2 : ∀ m, p (Event.noticeWouldCommit m) = false) :
    ((commit_loop config vc clock i n).1).filter p = [] := by
  rw [commit_loop_events, List.filter_eq_nil_iff]
  intro a ha
  simp only [List.mem_map] at ha
  obtain ⟨k, _, rfl⟩ := ha
  unfold make_commit
  by_cases h : config.dry_run <;> simp [h, hp1, hp2]

theorem filter_loop_eq_self (p : Event → Bool) (config : CommitConfig)
    (vc : VersionControlClient) (clock : Nat → String) (n i : Nat)
    (hp1 : ∀ m, p (Event.createEmptyCommit m) = true)
    (hp2 : ∀ m, p (Event.noticeWouldCommit m) = true) :
    ((commit_loop config vc clock i n).1).filter p =
      (commit_loop config vc clock i n).1 := by
  rw [List.filter_eq_self]
  intro a ha
  rw [commit_loop_events] at ha
  simp only [List.mem_map] at ha
  obtain ⟨k, _, rfl⟩ := ha
  unfold make_commit
  by_cases h : config.dry_run <;> simp [h, hp1, hp2]

/-! Fixture inputs used to instantiate the claim theorems. -/

/-- Two commits, auto-push on, explicit branch, no dry run. -/
def cfgTwo : CommitConfig :=
  { count := 2, auto_push := true, message_prefix := "Commit", branch := some "main",
    dry_run := false }

/-- Two commits, auto-push on, explicit branch, dry run. -/
def cfgDry : CommitConfig :=
  { count := 2, auto_push := true, message_prefix := "Commit", branch := some "main",
    dry_run := true }

/-- A collaborator for which every operation succeeds. -/
def vcOk : VersionControlClient :=
  { currentBranch := some "main", commitResult := fun _ => true, pushResult := true }

/-- A collaborator for which every mutating operation fails. -/
def vcFail : VersionControlClient :=
  { currentBranch := some "main", commitResult := fun _ => false, pushResult := false }

/-- A collaborator with no repository context at all. -/
def vcNoRepo : VersionControlClient :=
  { currentBranch := none, commitResult := fun _ => false, pushResult := false }

/-- A constant wall clock. -/
def clock0 : Nat → String := fun _ => "2026-10-12 00:00:00"

/-- Past the count check and a successful branch resolution, the commit
attempts of the full event trace are exactly the loop's events. -/
theorem main_filter_attempt (config : CommitConfig) (vc : VersionControlClient)
    (clock : Nat → String) (h0 : 0 < config.count) (hres : resolves config vc = true) :
    (main config vc clock).events.filter isAttempt =
      (commit_loop config vc clock 0 config.count.toNat).1 := by
  obtain ⟨evs, br, hevs, hmain⟩ := main_completes config vc clock h0 hres
  rw [hmain]
  simp only [List.filter_append]
  rw [filter_resolution isAttempt evs hevs rfl, filter_attempt_loop,
    filter_push_phase isAttempt config vc rfl rfl rfl rfl]
  simp

/-- C1: for every configuration with count > 0 whose run reaches the
sequencing loop (branch resolution succeeds), the loop performs exactly
`count` iterations — one commit attempt per iteration, in order
i = 0 .. count-1 — and the resulting failed-commit count `f` satisfies
0 ≤ f ≤ count. -/
theorem C1_loop_iterations (config : CommitConfig) (vc : VersionControlClient)
    (clock : Nat → String) (h0 : 0 < config.count) (hres : resolves config vc = true) :
    (main config vc clock).events.filter isAttempt =
      (List.range config.count.toNat).map
        (fun i => (make_commit i config.count config vc (clock i)).2)
    ∧ ((main config vc clock).events.filter isAttempt).length = config.count.toNat
    ∧ ∃ f, (main config vc clock).failedCommits = some f ∧ (f : Int) ≤ config.count := by
  obtain ⟨evs, br, hevs, hmain⟩ := main_completes config vc clock h0 hres
  have hfilter := main_filter_attempt config vc clock h0 hres
  refine ⟨?_, ?_, ?_⟩
  · rw [hfilter, commit_loop_events, List.range_eq_range']
  · rw [hfilter, commit_loop_events]
    simp
  · refine ⟨(commit_loop config vc clock 0 config.count.toNat).2, by rw [hmain], ?_⟩
    rw [commit_loop_failed]
    have hle : ((List.range' 0 config.count.toNat).filter
        (fun k => !(make_commit k config.count config vc (clock k)).1)).length ≤
        config.count.toNat := by
      calc ((List.range' 0 config.count.toNat).filter
            (fun k => !(make_commit k config.count config vc (clock k)).1)).length
          ≤ (List.range' 0 config.count.toNat).length := List.length_filter_le _ _
        _ = config.count.toNat := by simp
    have hcast : (config.count.toNat : Int) = config.count :=
      Int.toNat_of_nonneg (le_of_lt h0)
    omega

theorem C1_loop_iterations_witness :
    (main cfgTwo vcOk clock0).events.filter isAttempt =
      (List.range cfgTwo.count.toNat).map
        (fun i => (make_commit i cfgTwo.count cfgTwo vcOk (clock0 i)).2)
    ∧ ((main cfgTwo vcOk clock0).events.filter isAttempt).length = cfgTwo.count.toNat
    ∧ ∃ f, (main cfgTwo vcOk clock0).failedCommits = some f ∧ (f : Int) ≤ cfgTwo.count :=
  C1_loop_iterations cfgTwo vcOk clock0 (by decide) (by decide)

/-- C2 counterexample: a run with count = 1 whose single commit operation
fails — so every one of the count commit operations failed — still exits with
status 0, contradicting the claim that the process does not exit successfully
in that case. -/
theorem C2_counterexample :
    (main { count := 1, auto_push := false, message_prefix := "Commit",
            branch := some "main", dry_run := false } vcFail clock0).failedCommits
      = some 1
    ∧ (main { count := 1, auto_push := false, message_prefix := "Commit",
              branch := some "main", dry_run := false } vcFail clock0).exitCode = 0 :=
  ⟨rfl, rfl⟩

/-- C2 (amended): every run that reaches the end of the loop exits with
status 0, regardless of how many of the commit operations failed — even when
all of them failed. -/
theorem C2_exit_zero (config : CommitConfig) (vc : VersionControlClient)
    (clock : Nat → String) (h0 : 0 < config.count) (hres : resolves config vc = true) :
    (main config vc clock).exitCode = 0 := by
  obtain ⟨evs, br, _, hmain⟩ := main_completes config vc clock h0 hres
  rw [hmain]

theorem C2_exit_zero_witness : (main cfgTwo vcFail clock0).exitCode = 0 :=
  C2_exit_zero cfgTwo vcFail clock0 (by decide) (by decide)

/-- C4: for every configuration with count ≤ 0, the run exits with status 1
and produces no events at all: no branch query, no commit, no push. -/
theorem C4_nonpositive_count (config : CommitConfig) (vc : VersionControlClient)
    (clock : Nat → String) (h : config.count ≤ 0) :
    (main config vc clock).exitCode = 1 ∧ (main config vc clock).events = [] := by
  rw [main_count_nonpos config vc clock h]
  exact ⟨rfl, rfl⟩

theorem C4_nonpositive_count_witness :
    (main { count := 0, auto_push := true, message_prefix := "Commit",
            branch := none, dry_run := false } vcOk clock0).exitCode = 1
    ∧ (main { count := 0, auto_push := true, message_prefix := "Commit",
              branch := none, dry_run := false } vcOk clock0).events = [] :=
  C4_nonpositive_count
    { count := 0, auto_push := true, message_prefix := "Commit",
      branch := none, dry_run := false } vcOk clock0 (by decide)

theorem commit_loop_events_dry (config : CommitConfig) (vc : VersionControlClient)
    (clock : Nat → String) (hdry : config.dry_run = true) (n i : Nat) :
    (commit_loop config vc clock i n).1 =
      (List.range' i n).map (fun k => Event.noticeWouldCommit
        (commitMessage config.message_prefix k config.count (clock k))) := by
  rw [commit_loop_events]
  apply List.map_congr_left
  intro k _
  simp [make_commit, hdry]

/-- C3: with dryRun true, no mutating collaborator operation
(createEmptyCommit or push) occurs anywhere in the run, whatever the
configuration; and when the run reaches the loop it emits one would-commit
notice per iteration, plus a final would-push notice when autoPush is set. -/
theorem C3_dry_run_frame (config : CommitConfig) (vc : VersionControlClient)
    (clock : Nat → String) (hdry : config.dry_run = true) :
    (main config vc clock).events.filter isMutating = []
    ∧ (0 < config.count → resolves config vc = true →
        (main config vc clock).events.filter isWouldCommit =
          (List.range config.count.toNat).map
            (fun i => Event.noticeWouldCommit
              (commitMessage config.message_prefix i config.count (clock i)))
        ∧ (config.auto_push = true →
            (main config vc clock).events.getLast? = some Event.noticeWouldPush)) := by
  constructor
  · by_cases h0 : config.count ≤ 0
    · rw [main_count_nonpos config vc clock h0]
      rfl
    · push_neg at h0
      by_cases hres : resolves config vc = true
      · obtain ⟨evs, br, hevs, hmain⟩ := main_completes config vc clock h0 hres
        have hloopnil : ((commit_loop config vc clock 0 config.count.toNat).1).filter
            isMutating = [] := by
          rw [commit_loop_events_dry config vc clock hdry, List.filter_eq_nil_iff]
          intro a ha
          simp only [List.mem_map] at ha
          obtain ⟨k, _, rfl⟩ := ha
          simp [isMutating]
        have hpush : (push_phase config vc).filter isMutating = [] := by
          unfold push_phase
          by_cases hap : config.auto_push <;>
            simp [hap, hdry, List.filter_cons, isMutating]
        rw [hmain]
        simp only [List.filter_append]
        rw [filter_resolution isMutating evs hevs rfl, hloopnil, hpush]
        rfl
      · obtain ⟨ht, hcb⟩ := not_resolves config vc hres
        rw [main_noRepo config vc clock h0 ht hcb]
        rfl
  · intro h0 hres
    obtain ⟨evs, br, hevs, hmain⟩ := main_completes config vc clock h0 hres
    have hloop := commit_loop_events_dry config vc clock hdry config.count.toNat 0
    constructor
    · have hfil : ((commit_loop config vc clock 0 config.count.toNat).1).filter
          isWouldCommit = (commit_loop config vc clock 0 config.count.toNat).1 := by
        rw [List.filter_eq_self]
        intro a ha
        rw [hloop] at ha
        simp only [List.mem_map] at ha
        obtain ⟨k, _, rfl⟩ := ha
        rfl
      rw [hmain]
      simp only [List.filter_append]
      rw [filter_resolution isWouldCommit evs hevs rfl, hfil,
        filter_push_phase isWouldCommit config vc rfl rfl rfl rfl, hloop,
        List.range_eq_range']
      simp
    · intro hap
      rw [hmain]
      have hpp : push_phase config vc = [Event.noticeWouldPush] := by
        simp [push_phase, hap, hdry]
      rw [hpp]
      show ((evs ++ (commit_loop config vc clock 0 config.count.toNat).1)
        ++ [Event.noticeWouldPush]).getLast? = some Event.noticeWouldPush
      exact List.getLast?_concat _


theorem C3_dry_run_frame_witness :
    (main cfgDry vcFail clock0).events.filter isMutating = []
    ∧ (0 < cfgDry.count → resolves cfgDry vcFail = true →
        (main cfgDry vcFail clock0).events.filter isWouldCommit =
          (List.range cfgDry.count.toNat).map
            (fun i => Event.noticeWouldCommit
              (commitMessage cfgDry.message_prefix i cfgDry.count (clock0 i)))
        ∧ (cfgDry.auto_push = true →
            (main cfgDry vcFail clock0).events.getLast? = some Event.noticeWouldPush)) :=
  C3_dry_run_frame cfgDry vcFail clock0 (by decide)

/-- C5: each of the run's commit attempts i = 0 .. count-1 carries the
message "{prefix} {i+1} of {count} at {timestamp-of-iteration-i}", and the
messages of two distinct iterations are never equal (the sequence numbers
differ), whatever the clock returns. -/
theorem C5_message_format_unique (config : CommitConfig) (vc : VersionControlClient)
    (clock : Nat → String) (h0 : 0 < config.count) (hres : resolves config vc = true) :
    (∀ i, i < config.count.toNat →
      (((main config vc clock).events.filter isAttempt)[i]?).bind attemptMessage =
        some (config.message_prefix ++ " " ++ toString (i + 1) ++ " of "
          ++ toString config.count ++ " at " ++ clock i))
    ∧ (∀ i j, i < config.count.toNat → j < config.count.toNat → i ≠ j →
        (((main config vc clock).events.filter isAttempt)[i]?).bind attemptMessage ≠
        (((main config vc clock).events.filter isAttempt)[j]?).bind attemptMessage) := by
  have hget : ∀ i, i < config.count.toNat →
      (((main config vc clock).events.filter isAttempt)[i]?).bind attemptMessage =
        some (commitMessage config.message_prefix i config.count (clock i)) := by
    intro i hi
    rw [main_filter_attempt config vc clock h0 hres, commit_loop_events,
      List.getElem?_map, List.getElem?_range' 0 1 hi]
    show attemptMessage (make_commit (0 + 1 * i) config.count config vc
      (clock (0 + 1 * i))).2 = _
    have hidx : 0 + 1 * i = i := by omega
    rw [hidx]
    unfold make_commit
    by_cases hd : config.dry_run <;> simp [hd, attemptMessage]
  constructor
  · intro i hi
    rw [hget i hi]
    rfl
  · intro i j hi hj hij hEq
    rw [hget i hi, hget j hj] at hEq
    exact hij (commitMessage_inj config.message_prefix config.count i j
      (clock i) (clock j) (Option.some.inj hEq))

theorem C5_message_format_unique_witness :
    (∀ i, i < cfgTwo.count.toNat →
      (((main cfgTwo vcOk clock0).events.filter isAttempt)[i]?).bind attemptMessage =
        some (cfgTwo.message_prefix ++ " " ++ toString (i + 1) ++ " of "
          ++ toString cfgTwo.count ++ " at " ++ clock0 i))
    ∧ (∀ i j, i < cfgTwo.count.toNat → j < cfgTwo.count.toNat → i ≠ j →
        (((main cfgTwo vcOk clock0).events.filter isAttempt)[i]?).bind attemptMessage ≠
        (((main cfgTwo vcOk clock0).events.filter isAttempt)[j]?).bind attemptMessage) :=
  C5_message_format_unique cfgTwo vcOk clock0 (by decide) (by decide)

/-- C6: individual commit failures never abort the loop; in particular when
every commit operation fails, the loop still runs all count iterations, the
failed count equals count, and the run completes normally (exit status 0). -/
theorem C6_failures_do_not_abort (config : CommitConfig) (vc : VersionControlClient)
    (clock : Nat → String) (h0 : 0 < config.count) (hres : resolves config vc = true)
    (hdry : config.dry_run = false) (hfail : ∀ k, vc.commitResult k = false) :
    (main config vc clock).failedCommits = some config.count.toNat
    ∧ (main config vc clock).exitCode = 0
    ∧ ((main config vc clock).events.filter isAttempt).length = config.count.toNat := by
  obtain ⟨evs, br, hevs, hmain⟩ := main_completes config vc clock h0 hres
  refine ⟨?_, by rw [hmain], ?_⟩
  · have hfull : (commit_loop config vc clock 0 config.count.toNat).2 =
        config.count.toNat := by
      rw [commit_loop_failed]
      have hall : (List.range' 0 config.count.toNat).filter
          (fun k => !(make_commit k config.count config vc (clock k)).1) =
          List.range' 0 config.count.toNat := by
        rw [List.filter_eq_self]
        intro a _
        simp [make_commit, hdry, hfail a]
      rw [hall]
      simp
    rw [hmain]
    show some (commit_loop config vc clock 0 config.count.toNat).2 =
      some config.count.toNat
    rw [hfull]
  · rw [main_filter_attempt config vc clock h0 hres, commit_loop_events]
    simp

theorem C6_failures_do_not_abort_witness :
    (main cfgTwo vcFail clock0).failedCommits = some cfgTwo.count.toNat
    ∧ (main cfgTwo vcFail clock0).exitCode = 0
    ∧ ((main cfgTwo vcFail clock0).events.filter isAttempt).length =
        cfgTwo.count.toNat :=
  C6_failures_do_not_abort cfgTwo vcFail clock0 (by decide) (by decide) (by decide)
    (fun k => rfl)

/-- C7: the target branch shown is config.branch when that is set (truthy),
otherwise the collaborator's current-branch answer; and when neither is
available the run exits with status 1 after the single branch query, with no
commit operation attempted. -/
theorem C7_branch_resolution (config : CommitConfig) (vc : VersionControlClient)
    (clock : Nat → String) (h0 : 0 < config.count) :
    (truthy config.branch = true → (main config vc clock).branchShown = config.branch)
    ∧ (truthy config.branch = false →
        (main config vc clock).branchShown = vc.currentBranch
        ∧ (vc.currentBranch = none →
            (main config vc clock).exitCode = 1
            ∧ (main config vc clock).events = [Event.queryBranch]
            ∧ (main config vc clock).events.filter isCommitCall = [])) := by
  constructor
  · intro ht
    obtain ⟨b, hb⟩ := truthy_some ht
    have hmain := main_run config vc clock h0 [] b
      (by rw [resolve_branch_truthy config vc ht, hb])
    rw [hmain, hb]
  · intro ht
    cases hcb : vc.currentBranch with
    | none =>
      have hmain := main_noRepo config vc clock h0 ht hcb
      rw [hmain]
      exact ⟨rfl, fun _ => ⟨rfl, rfl, rfl⟩⟩
    | some b =>
      have hmain := main_run config vc clock h0 [Event.queryBranch] b
        (by rw [resolve_branch_query config vc ht, hcb])
      rw [hmain]
      refine ⟨rfl, fun hnone => absurd hnone (by simp)⟩

theorem C7_branch_resolution_witness :
    (truthy cfgTwo.branch = true → (main cfgTwo vcOk clock0).branchShown = cfgTwo.branch)
    ∧ (truthy cfgTwo.branch = false →
        (main cfgTwo vcOk clock0).branchShown = vcOk.currentBranch
        ∧ (vcOk.currentBranch = none →
            (main cfgTwo vcOk clock0).exitCode = 1
            ∧ (main cfgTwo vcOk clock0).events = [Event.queryBranch]
            ∧ (main cfgTwo vcOk clock0).events.filter isCommitCall = [])) :=
  C7_branch_resolution cfgTwo vcOk clock0 (by decide)

/-- C8: with autoPush true and dryRun false, a run that reaches the end of
the loop requests exactly one push, after all commit attempts; a push failure
is reported as a notice, and the exit status is 0 whatever the push outcome. -/
theorem C8_single_push_nonfatal (config : CommitConfig) (vc : VersionControlClient)
    (clock : Nat → String) (h0 : 0 < config.count) (hres : resolves config vc = true)
    (hap : config.auto_push = true) (hdry : config.dry_run = false) :
    (main config vc clock).events.filter (fun e => isPush e || isAttempt e) =
      ((List.range config.count.toNat).map
        (fun i => (make_commit i config.count config vc (clock i)).2)) ++ [Event.push]
    ∧ (vc.pushResult = false → Event.noticePushFailed ∈ (main config vc clock).events)
    ∧ (∀ pr : Bool, (main config { vc with pushResult := pr } clock).exitCode = 0) := by
  obtain ⟨evs, br, hevs, hmain⟩ := main_completes config vc clock h0 hres
  refine ⟨?_, ?_, ?_⟩
  · have hpp : (push_phase config vc).filter (fun e => isPush e || isAttempt e) =
        [Event.push] := by
      unfold push_phase
      by_cases hp : vc.pushResult <;>
        simp [hap, hdry, hp, List.filter_cons, isPush, isAttempt]
    rw [hmain]
    simp only [List.filter_append]
    rw [filter_resolution _ evs hevs rfl,
      filter_loop_eq_self _ config vc clock config.count.toNat 0
        (fun m => rfl) (fun m => rfl),
      hpp, commit_loop_events, List.range_eq_range']
    simp
  · intro hpf
    have hppf : push_phase config vc = [Event.push, Event.noticePushFailed] := by
      simp [push_phase, hap, hdry, hpf]
    rw [hmain]
    show Event.noticePushFailed ∈
      evs ++ (commit_loop config vc clock 0 config.count.toNat).1 ++ push_phase config vc
    rw [hppf]
    simp
  · intro pr
    have hres2 : resolves config { vc with pushResult := pr } = true := hres
    obtain ⟨evs2, br2, _, hmain2⟩ :=
      main_completes config { vc with pushResult := pr } clock h0 hres2
    rw [hmain2]

theorem C8_single_push_nonfatal_witness :
    (main cfgTwo vcFail clock0).events.filter (fun e => isPush e || isAttempt e) =
      ((List.range cfgTwo.count.toNat).map
        (fun i => (make_commit i cfgTwo.count cfgTwo vcFail (clock0 i)).2)) ++ [Event.push]
    ∧ (vcFail.pushResult = false →
        Event.noticePushFailed ∈ (main cfgTwo vcFail clock0).events)
    ∧ (∀ pr : Bool, (main cfgTwo { vcFail with pushResult := pr } clock0).exitCode = 0) :=
  C8_single_push_nonfatal cfgTwo vcFail clock0 (by decide) (by decide) (by decide)
    (by decide)

theorem commit_loop_branch (config : CommitConfig) (vc : VersionControlClient)
    (clock : Nat → String) (b : Option String) :
    ∀ n i, commit_loop { config with branch := b } vc clock i n =
      commit_loop config vc clock i n := by
  intro n
  induction n with
  | zero => intro i; rfl
  | succ n ih =>
    intro i
    simp only [commit_loop, ih]
    rfl

/-- C9: the configured branch is display-only: replacing it with any other
value leaves the non-query part of the event trace — every commit and push
operation and their arguments — the failed count, and the exit status
unchanged (here under a collaborator that can answer the branch query, so
that both runs resolve a branch). -/
theorem C9_branch_display_only (config : CommitConfig) (vc : VersionControlClient)
    (clock : Nat → String) (b : Option String) (hsome : vc.currentBranch.isSome = true) :
    (main { config with branch := b } vc clock).events.filter (fun e => !isQueryBranch e)
      = (main config vc clock).events.filter (fun e => !isQueryBranch e)
    ∧ (main { config with branch := b } vc clock).failedCommits
      = (main config vc clock).failedCommits
    ∧ (main { config with branch := b } vc clock).exitCode
      = (main config vc clock).exitCode := by
  by_cases h0 : config.count ≤ 0
  · have h0b : ({ config with branch := b } : CommitConfig).count ≤ 0 := h0
    rw [main_count_nonpos { config with branch := b } vc clock h0b,
      main_count_nonpos config vc clock h0]
    exact ⟨rfl, rfl, rfl⟩
  · push_neg at h0
    have h0b : 0 < ({ config with branch := b } : CommitConfig).count := h0
    have hres1 : resolves { config with branch := b } vc = true := by
      simp [resolves, hsome]
    have hres2 : resolves config vc = true := by
      simp [resolves, hsome]
    obtain ⟨evs1, br1, hevs1, hmain1⟩ :=
      main_completes { config with branch := b } vc clock h0b hres1
    obtain ⟨evs2, br2, hevs2, hmain2⟩ := main_completes config vc clock h0 hres2
    have hcnt : ({ config with branch := b } : CommitConfig).count = config.count := rfl
    have hloop := commit_loop_branch config vc clock b config.count.toNat 0
    have hpp : push_phase { config with branch := b } vc = push_phase config vc := rfl
    refine ⟨?_, ?_, ?_⟩
    · rw [hmain1, hmain2]
      simp only [List.filter_append]
      rw [filter_resolution _ evs1 hevs1 rfl, filter_resolution _ evs2 hevs2 rfl,
        hcnt, hloop, hpp]
    · rw [hmain1, hmain2]
      show some (commit_loop { config with branch := b } vc clock 0
          ({ config with branch := b } : CommitConfig).count.toNat).2 =
        some (commit_loop config vc clock 0 config.count.toNat).2
      rw [hcnt, hloop]
    · rw [hmain1, hmain2]

theorem C9_branch_display_only_witness :
    (main { cfgTwo with branch := some "dev" } vcOk clock0).events.filter
        (fun e => !isQueryBranch e)
      = (main cfgTwo vcOk clock0).events.filter (fun e => !isQueryBranch e)
    ∧ (main { cfgTwo with branch := some "dev" } vcOk clock0).failedCommits
      = (main cfgTwo vcOk clock0).failedCommits
    ∧ (main { cfgTwo with branch := some "dev" } vcOk clock0).exitCode
      = (main cfgTwo vcOk clock0).exitCode :=
  C9_branch_display_only cfgTwo vcOk clock0 (some "dev") (by decide)

/-- C10: when config.branch is set (truthy), the current-branch query never
happens, so a missing repository is not detected before the loop: for every
collaborator — including one with no repository context — the run performs
all count commit attempts, each failure only increments the failed count, and
the exit status is 0. -/
theorem C10_branch_set_skips_query (config : CommitConfig) (vc : VersionControlClient)
    (clock : Nat → String) (ht : truthy config.branch = true) (h0 : 0 < config.count) :
    (main config vc clock).events.filter isQueryBranch = []
    ∧ (main config vc clock).exitCode = 0
    ∧ ((main config vc clock).events.filter isAttempt).length = config.count.toNat
    ∧ (main config vc clock).failedCommits =
        some (((List.range config.count.toNat).filter
          (fun k => !(make_commit k config.count config vc (clock k)).1)).length) := by
  obtain ⟨b, hb⟩ := truthy_some ht
  have hres : resolves config vc = true := by
    simp [resolves, ht]
  have hmain := main_run config vc clock h0 [] b
    (by rw [resolve_branch_truthy config vc ht, hb])
  refine ⟨?_, by rw [hmain], ?_, ?_⟩
  · rw [hmain]
    show (([] ++ (commit_loop config vc clock 0 config.count.toNat).1
      ++ push_phase config vc).filter isQueryBranch) = []
    simp only [List.filter_append]
    rw [filter_loop_eq_nil isQueryBranch config vc clock config.count.toNat 0
        (fun m => rfl) (fun m => rfl),
      filter_push_phase isQueryBranch config vc rfl rfl rfl rfl]
    rfl
  · rw [main_filter_attempt config vc clock h0 hres, commit_loop_events]
    simp
  · rw [hmain]
    show some (commit_loop config vc clock 0 config.count.toNat).2 = _
    rw [commit_loop_failed, List.range_eq_range']

theorem C10_branch_set_skips_query_witness :
    (main cfgTwo vcNoRepo clock0).events.filter isQueryBranch = []
    ∧ (main cfgTwo vcNoRepo clock0).exitCode = 0
    ∧ ((main cfgTwo vcNoRepo clock0).events.filter isAttempt).length =
        cfgTwo.count.toNat
    ∧ (main cfgTwo vcNoRepo clock0).failedCommits =
        some (((List.range cfgTwo.count.toNat).filter
          (fun k => !(make_commit k cfgTwo.count cfgTwo vcNoRepo (clock0 k)).1)).length) :=
  C10_branch_set_skips_query cfgTwo vcNoRepo clock0 (by decide) (by decide)

end Committed
